import Mathlib

/-
Verification of the OracleXBT prediction-market agent core against its
design specification.

The development shallowly embeds the Python modules that the claims
concern:

* src/agent/platforms/base.py        - Platform enum, Market dataclass
* src/agent/platforms/aggregator.py  - PredictionMarketAggregator
* src/agent/memory.py                - ConversationMemory / MarketContext
* src/agent/agent.py                 - PredictionMarketAgent loop + dispatch
* src/agent/twitter_tools.py         - TwitterTools
* src/agent/config.py                - AgentConfig.max_tool_calls

Conventions of the embedding:

* Python floats are modelled as rationals (the claims under study involve
  only exact decimal arithmetic: probabilities such as 0.62, thresholds
  such as 0.5).
* `datetime.now()` is modelled by an explicit logical clock `now : Nat`
  threaded through the operations that read it.
* Python dictionaries that preserve insertion order are modelled as
  association lists (`List (key × value)`); `dict` membership is
  association-list lookup.
* Fallible calls into platform clients / network backends are modelled as
  `Except String` results; a raised exception is an `.error`.
* The concurrent fan-out of `search_all` (ThreadPoolExecutor) is modelled
  by its deterministic sequential semantics: the dict produced maps each
  submitted platform to the result of its (isolated) call.  Completion
  order of the pool only permutes dictionary insertion order, which the
  claims do not mention.
-/

namespace OracleXBT

/-! ### Platform enum (src/agent/platforms/base.py, class Platform) -/

inductive Platform where
  | polymarket
  | kalshi
  | limitless
  | manifold
  | metaculus
  | predictit
deriving DecidableEq, Repr

/-! ### Market dataclass (src/agent/platforms/base.py, class Market)

Only the fields read by the aggregator algorithms under study are
carried (id, platform, title, probability, is_resolved, close_time);
the purely descriptive fields (description, url, volume, categories,
tags, raw_data, ...) are never consulted by the claimed code paths. -/

structure Market where
  id : String
  platform : Platform
  title : String
  probability : Option ℚ
  is_resolved : Bool
  close_time : Option ℕ
deriving DecidableEq, Repr

/-- Market.is_active property (base.py lines 64-71):
returns False when resolved, False when a close_time exists and lies in
the past, True otherwise.  `now` stands for `datetime.now()`. -/
def Market.is_active (m : Market) (now : ℕ) : Bool :=
  if m.is_resolved then false
  else
    match m.close_time with
    | some ct => if now > ct then false else true
    | none => true

/-! ### ConversationMemory market-context tracking (src/agent/memory.py)

The claims under study touch only the `_market_context` structure and
`track_market`; the rolling message deque and the preference map are
independent structures not consulted by `track_market` and are omitted
here. -/

/-- MarketContext dataclass (memory.py lines 29-36); `notes` is never
read by the code under study and is omitted. -/
structure MarketContext where
  market_id : String
  title : String
  last_price : Option ℚ
  last_accessed : ℕ
deriving DecidableEq, Repr

/-- Market-context part of ConversationMemory (memory.py lines 49-56):
`max_market_context` is the capacity, `market_context` the
insertion-ordered dict `_market_context` keyed by market id. -/
structure ConversationMemory where
  max_market_context : ℕ
  market_context : List (String × MarketContext)
deriving DecidableEq, Repr

/-- Python truthiness assignment `price or ctx.last_price`
(memory.py line 88): a missing (None) or zero (falsy float) price keeps
the previous value, any non-zero price overwrites it. -/
def pyOrPrice (price old : Option ℚ) : Option ℚ :=
  match price with
  | some p => if p = 0 then old else some p
  | none => old

/-- Python `min(keys, key=lambda k: ctx[k].last_accessed)` over a
non-empty insertion-ordered dict (memory.py lines 93-96): the first
entry attaining the minimal `last_accessed` wins, exactly as Python's
`min` keeps the earliest of tied candidates. -/
def oldestEntry : List (String × MarketContext) → Option (String × MarketContext)
  | [] => none
  | e :: rest =>
      some (rest.foldl
        (fun best x => if x.2.last_accessed < best.2.last_accessed then x else best) e)

/-- Python dict lookup `d.get(k)` / `k in d` over the insertion-ordered
association list. -/
def dictGet (market_id : String) : List (String × MarketContext) → Option MarketContext
  | [] => none
  | (k, v) :: rest => if k = market_id then some v else dictGet market_id rest

/-- ConversationMemory.track_market (memory.py lines 84-103).  When the
id is already tracked, its price is updated by the truthiness rule and
`last_accessed` is refreshed; otherwise, at capacity, the entry with
the oldest `last_accessed` is deleted before the new entry is inserted. -/
def trackMarket (mem : ConversationMemory) (now : ℕ)
    (market_id title : String) (price : Option ℚ) : ConversationMemory :=
  match dictGet market_id mem.market_context with
  | some _ =>
      { mem with market_context :=
          mem.market_context.map (fun e =>
            if e.1 = market_id then
              (e.1, { e.2 with
                        last_price := pyOrPrice price e.2.last_price
                        last_accessed := now })
            else e) }
  | none =>
      let ctxs :=
        if mem.market_context.length ≥ mem.max_market_context then
          match oldestEntry mem.market_context with
          | some ev => mem.market_context.eraseP (fun e => e.1 = ev.1)
          | none => mem.market_context
        else mem.market_context
      { mem with market_context :=
          ctxs ++ [(market_id,
            { market_id := market_id, title := title
              last_price := price, last_accessed := now })] }

/-! ### Platform clients (interface of src/agent/platforms/ clients)

A concrete client (manifold.py, metaculus.py, predictit.py,
polymarket_direct.py) either returns data or raises; every client's
`get_market` returns a `Market` or raises (e.g. predictit.py line 127
raises ValueError on a miss, the HTTP-backed clients raise through
`response.raise_for_status()`).  Raising is modelled by `.error`. -/

structure PlatformClient where
  search_markets : String → ℕ → Except String (List Market)
  get_market : String → Except String Market

/-- Aggregator client registry `self.clients`
(aggregator.py lines 44-56): an insertion-ordered dict from platform to
client, modelled as an association list. -/
abbrev Clients := List (Platform × PlatformClient)

/-- Configured-platform test `p in self.clients`. -/
def clientFor (clients : Clients) (p : Platform) : Option PlatformClient :=
  (List.lookup p clients : Option PlatformClient)

/-- enabled_platforms property (aggregator.py lines 58-61):
`list(self.clients.keys())`. -/
def enabledPlatforms (clients : Clients) : List Platform :=
  (clients : List (Platform × PlatformClient)).map Prod.fst

/-- Inner worker search_platform of search_all (aggregator.py
lines 87-96): a missing client or a raising `search_markets` call both
resolve to the empty list for that platform alone. -/
def searchPlatform (clients : Clients) (query : String) (limit : ℕ)
    (p : Platform) : Platform × List Market :=
  match clientFor clients p with
  | none => (p, [])
  | some client =>
      match client.search_markets query limit with
      | .ok markets => (p, markets)
      | .error _ => (p, [])

/-- Python truthiness default `platforms or self.enabled_platforms`
(aggregator.py line 84): None or the empty list fall back to every
enabled platform. -/
def targetPlatforms (clients : Clients) (platforms : Option (List Platform)) :
    List Platform :=
  match platforms with
  | none => enabledPlatforms clients
  | some [] => enabledPlatforms clients
  | some ps => ps

/-- PredictionMarketAggregator.search_all (aggregator.py lines 67-109).
One isolated call per submitted platform (only platforms present in
`self.clients` are submitted, line 102); the resulting dict maps each
submitted platform to its isolated result. -/
def searchAll (clients : Clients) (query : String) (limit : ℕ)
    (platforms : Option (List Platform)) : List (Platform × List Market) :=
  ((targetPlatforms clients platforms).filter
      (fun p => (clientFor clients p).isSome)).map
    (searchPlatform clients query limit)

/-- Inner loops of search_all_flat (aggregator.py lines 129-135): walk
row index `i`, and inside it every platform holding an `i`-th result,
returning the accumulated list the moment its length reaches `limit`
(the Bool flags that early return). -/
def flatInner (limit : ℕ) (i : ℕ) :
    List (Platform × List Market) → List Market → List Market × Bool
  | [], acc => (acc, false)
  | e :: rest, acc =>
      match e.2.get? i with
      | some m =>
          let acc' := acc ++ [m]
          if acc'.length ≥ limit then (acc', true)
          else flatInner limit i rest acc'
      | none => flatInner limit i rest acc

/-- Outer row loop of search_all_flat with its final `[:limit]` slice
(aggregator.py lines 129-137). -/
def flatOuter (limit : ℕ) (platform_results : List (Platform × List Market)) :
    List ℕ → List Market → List Market
  | [], acc => acc.take limit
  | i :: is, acc =>
      match flatInner limit i platform_results acc with
      | (acc', true) => acc'
      | (acc', false) => flatOuter limit platform_results is acc'

/-- PredictionMarketAggregator.search_all_flat (aggregator.py
lines 111-137).  `per_platform = max(limit // len(enabled), 10)`;
`max_len` is the longest per-platform result list (0 when no platform
responded).  Note Python raises ZeroDivisionError when no platform is
enabled; theorems therefore assume a non-empty registry. -/
def searchAllFlat (clients : Clients) (query : String) (limit : ℕ)
    (platforms : Option (List Platform)) : List Market :=
  let per_platform := max (limit / (enabledPlatforms clients).length) 10
  let platform_results := searchAll clients query per_platform platforms
  let max_len := (platform_results.map (fun pr => pr.2.length)).foldr max 0
  flatOuter limit platform_results (List.range max_len) []

/-- Python str.startswith, expressed on the underlying character lists
(String.startsWith computes the same Bool through byte positions). -/
def strStartsWith (s pre : String) : Bool :=
  pre.data.isPrefixOf s.data

/-- PredictionMarketAggregator._detect_platform (aggregator.py
lines 199-209): prefix dispatch over the four recognized id shapes. -/
def detectPlatform (market_id : String) : Option Platform :=
  if strStartsWith market_id "manifold-" then some Platform.manifold
  else if strStartsWith market_id "metaculus-" then some Platform.metaculus
  else if strStartsWith market_id "predictit-" then some Platform.predictit
  else if strStartsWith market_id "pm-" then some Platform.polymarket
  else none

/-- Fallback probe loop of get_market (aggregator.py lines 191-197):
walk `self.clients.values()` in registry order; the first call that does
not raise has its market returned; when every client raises the result
is None.  The returned trace lists the platforms queried, in order. -/
def probeClients (market_id : String) :
    List (Platform × PlatformClient) → Option Market × List Platform
  | [] => (none, [])
  | (p, client) :: rest =>
      match client.get_market market_id with
      | .ok m => (some m, [p])
      | .error _ =>
          ((probeClients market_id rest).1, p :: (probeClients market_id rest).2)

/-- PredictionMarketAggregator.get_market (aggregator.py lines 172-197),
instrumented with the ordered trace of platforms whose client was
queried.  A recognized, configured platform is tried first; if that call
raises — or the prefix is unrecognized or unconfigured — control falls
through to the probe loop over every configured client. -/
def getMarket (clients : Clients) (market_id : String) :
    Option Market × List Platform :=
  match detectPlatform market_id with
  | some p =>
      match clientFor clients p with
      | some client =>
          match client.get_market market_id with
          | .ok m => (some m, [p])
          | .error _ =>
              ((probeClients market_id clients).1, p :: (probeClients market_id clients).2)
      | none => probeClients market_id clients
  | none => probeClients market_id clients

/-! ### ArbitrageMatcher (PredictionMarketAggregator.find_arbitrage,
aggregator.py lines 211-286) -/

/-- Title word set `set(title.lower().split())` (aggregator.py
lines 250-251): Python str.split() splits on whitespace runs and drops
empty fragments.  Lower-casing and splitting are expressed on the
character list (String.toLower / String.split compute the same values
through byte positions); the empty fragments produced by splitOnP at
whitespace runs are dropped by the filter, exactly as str.split() with
no argument drops them. -/
def titleWords (title : String) : Finset String :=
  ((((title.data.map Char.toLower).splitOnP (fun c => c.isWhitespace)).map
      String.mk).filter (fun w => w ≠ "")).toFinset

/-- Stopword set `common_words` (aggregator.py line 254). -/
def commonWords : Finset String :=
  (["the", "a", "an", "will", "be", "in", "to", "of", "for", "on", "at"]
    : List String).toFinset

/-- Title word set after stopword removal (aggregator.py lines 255-256). -/
def keyWords (title : String) : Finset String :=
  titleWords title \ commonWords

/-- Word-overlap similarity (aggregator.py lines 261-262):
`overlap / min(len(w1), len(w2))` as an exact rational. -/
def similarityScore (t1 t2 : String) : ℚ :=
  ((keyWords t1 ∩ keyWords t2).card : ℚ) /
    ((min (keyWords t1).card (keyWords t2).card : ℕ) : ℚ)

/-- Arbitrage opportunity record (aggregator.py lines 275-281); the
display string `spread_pct` (a pure formatting of `spread`) is not
modelled. -/
structure Opportunity where
  market1 : Market
  market2 : Market
  spread : ℚ
  similarity : ℚ
deriving DecidableEq, Repr

/-- Lexicographic string comparison on the underlying character lists —
the order `sorted` uses on Python strings (String.le computes the same
relation through byte iterators). -/
def charListLe : List Char → List Char → Bool
  | [], _ => true
  | _ :: _, [] => false
  | c :: cs, d :: ds =>
      if c < d then true else if d < c then false else charListLe cs ds

/-- Sorted id pair `tuple(sorted([id1, id2]))` (aggregator.py line 271). -/
def pairKey (m1 m2 : Market) : String × String :=
  if charListLe m1.id.data m2.id.data then (m1.id, m2.id) else (m2.id, m1.id)

/-- Loop body for one candidate pair (aggregator.py lines 245-281),
updating the `(checked_pairs, opportunities)` state. -/
def considerPair (min_spread : ℚ)
    (st : List (String × String) × List Opportunity) (m1 m2 : Market) :
    List (String × String) × List Opportunity :=
  if m1.platform = m2.platform then st
  else
    let w1 := keyWords m1.title
    let w2 := keyWords m2.title
    if w1 = ∅ ∨ w2 = ∅ then st
    else
      let similarity : ℚ := ((w1 ∩ w2).card : ℚ) / ((min w1.card w2.card : ℕ) : ℚ)
      if similarity < 1/2 then st
      else
        let spread := |m1.probability.getD 0 - m2.probability.getD 0|
        if spread ≥ min_spread then
          let key := pairKey m1 m2
          if key ∈ st.1 then st
          else (key :: st.1, st.2 ++ [{ market1 := m1, market2 := m2
                                        spread := spread
                                        similarity := similarity }])
        else st

/-- Inner pair loop `for market2 in all_markets[i+1:]`
(aggregator.py line 244). -/
def innerPairs (min_spread : ℚ) (m1 : Market) (rest : List Market)
    (st : List (String × String) × List Opportunity) :
    List (String × String) × List Opportunity :=
  rest.foldl (fun st m2 => considerPair min_spread st m1 m2) st

/-- Outer pair loop `for i, market1 in enumerate(all_markets)`
(aggregator.py line 243). -/
def outerPairs (min_spread : ℚ) :
    List Market → List (String × String) × List Opportunity →
      List (String × String) × List Opportunity
  | [], st => st
  | m1 :: rest, st => outerPairs min_spread rest (innerPairs min_spread m1 rest st)

/-- Core of find_arbitrage over an already flattened snapshot list
(aggregator.py lines 232-286): keep snapshots with a defined probability
that are active, run the pairwise scan, sort by spread descending
(Python's stable sort with reverse=True). -/
def findArbitrageOn (now : ℕ) (min_spread : ℚ) (markets : List Market) :
    List Opportunity :=
  let all_markets := markets.filter
    (fun m => m.probability.isSome && m.is_active now)
  let opportunities := (outerPairs min_spread all_markets ([], [])).2
  opportunities.mergeSort (fun x y => decide (y.spread ≤ x.spread))

/-- PredictionMarketAggregator.find_arbitrage (aggregator.py
lines 211-286): search every platform with per-platform limit 20, then
run the pairwise scan over the flattened results. -/
def findArbitrage (clients : Clients) (now : ℕ) (query : String)
    (min_spread : ℚ) : List Opportunity :=
  findArbitrageOn now min_spread
    ((searchAll clients query 20 none).flatMap Prod.snd)

/-! ### Twitter tools (src/agent/twitter_tools.py)

Handler results are Python dicts with heterogeneous keys; the keys that
the unconfigured code paths actually emit are modelled as optional
record fields (a missing key is `none`).  Some handlers return a list
of dicts instead of a dict. -/

/-- Dict payload produced by a TwitterTools handler (twitter_tools.py
lines 300-455).  Fields carried: the keys emitted by the
client-unavailable branches; further keys of the configured branches
are behind the abstract client and are not needed by the claims. -/
structure TwDict where
  success : Option Bool := none
  posted : Option Bool := none
  composed : Option Bool := none
  error : Option String := none
  text : Option String := none
  tweets : Option (List String) := none
deriving DecidableEq, Repr

/-- Handler return value: a dict, or a list of dicts (the search-like
handlers return lists). -/
inductive TwValue where
  | dict (d : TwDict)
  | list (ds : List TwDict)
deriving DecidableEq, Repr

/-- Arguments passed into a Twitter handler.  Only `text` and `tweets`
are echoed back by the unconfigured branches. -/
structure TwArgs where
  text : String := ""
  tweets : List String := []
deriving DecidableEq, Repr

/-- TwitterTools instance state: `is_available` (twitter_tools.py
lines 269-272, false whenever the underlying client is unconfigured)
plus the behaviour of the configured client calls, abstracted as an
oracle returning the handler's dict or raising. -/
structure TwState where
  available : Bool
  clientResult : String → TwArgs → Except String TwValue

/-- Names registered in TwitterTools.execute's handler table
(twitter_tools.py lines 276-289). -/
def twitterHandlerNames : List String :=
  ["post_tweet", "post_thread", "reply_to_tweet", "quote_tweet",
   "search_prediction_market_tweets", "get_platform_tweets",
   "get_tweet_details", "get_mentions", "compose_market_tweet",
   "compose_arbitrage_tweet", "like_tweet", "retweet"]

/-- The ten handlers that require a configured client; the two compose_*
handlers are pure formatters and never consult the client. -/
def clientRequiringTools : List String :=
  ["post_tweet", "post_thread", "reply_to_tweet", "quote_tweet",
   "search_prediction_market_tweets", "get_platform_tweets",
   "get_tweet_details", "get_mentions", "like_tweet", "retweet"]

/-- Individual handler bodies (twitter_tools.py lines 300-455).  Every
client-requiring handler first checks `self.is_available` and, when the
client is unconfigured, returns its "Twitter not configured" payload
without raising; otherwise the configured-client behaviour (network
calls, composition of live data) is the oracle's answer.  The compose_*
handlers delegate to TweetComposer regardless of availability, also
summarised by the oracle. -/
def twHandler (tw : TwState) (name : String) (args : TwArgs) :
    Except String TwValue :=
  if name = "post_tweet" then
    if !tw.available then
      .ok (.dict { posted := some false, error := some "Twitter not configured"
                   text := some args.text })
    else tw.clientResult name args
  else if name = "post_thread" then
    if !tw.available then
      .ok (.dict { posted := some false, error := some "Twitter not configured"
                   tweets := some args.tweets })
    else tw.clientResult name args
  else if name = "reply_to_tweet" ∨ name = "quote_tweet" then
    if !tw.available then
      .ok (.dict { posted := some false, error := some "Twitter not configured" })
    else tw.clientResult name args
  else if name = "search_prediction_market_tweets" ∨
      name = "get_platform_tweets" ∨ name = "get_mentions" then
    if !tw.available then
      .ok (.list [{ error := some "Twitter not configured" }])
    else tw.clientResult name args
  else if name = "get_tweet_details" then
    if !tw.available then
      .ok (.dict { error := some "Twitter not configured" })
    else tw.clientResult name args
  else if name = "like_tweet" ∨ name = "retweet" then
    if !tw.available then
      .ok (.dict { success := some false, error := some "Twitter not configured" })
    else tw.clientResult name args
  else
    tw.clientResult name args

/-- Outer dict produced by TwitterTools.execute (twitter_tools.py
lines 274-298): `{"success": True, "data": result}` when the handler
returns, `{"success": False, "error": str(e)}` when it raises, and an
unknown-tool error dict otherwise. -/
structure TwOuter where
  success : Bool
  data : Option TwValue
  error : Option String
deriving DecidableEq, Repr

/-- TwitterTools.execute (twitter_tools.py lines 274-298). -/
def twExecute (tw : TwState) (name : String) (args : TwArgs) : TwOuter :=
  if name ∈ twitterHandlerNames then
    match twHandler tw name args with
    | .ok v => { success := true, data := some v, error := none }
    | .error e => { success := false, data := none, error := some e }
  else
    { success := false, data := none, error := some ("Unknown tool: " ++ name) }

/-! ### Agent tool dispatch and conversation loop (src/agent/agent.py) -/

/-- Payload carried by a ToolResult's `data` field. -/
inductive ToolData where
  | tw (v : TwValue)
  | twOuter (o : TwOuter)
  | raw (s : String)
deriving DecidableEq, Repr

/-- ToolResult dataclass (src/agent/tools.py lines 181-194). -/
structure ToolResult where
  success : Bool
  data : Option ToolData
  error : Option String
deriving DecidableEq, Repr

/-- ToolResult.to_message (tools.py lines 188-194): successful results
serialize their data, failures serialize to "Error: <message>".  The
JSON dump of structured data is abstracted to a canonical rendering via
`reprStr`; only the success/failure split matters to the claims. -/
def ToolResult.to_message (r : ToolResult) : String :=
  if r.success then
    match r.data with
    | some (.raw s) => s
    | some d => reprStr d
    | none => reprStr (none : Option ToolData)
  else "Error: " ++ r.error.getD ""

/-- Twitter tool-name set consulted by _execute_tool (agent.py
lines 207-212). -/
def twitterToolNames : List String :=
  ["post_tweet", "post_thread", "reply_to_tweet", "quote_tweet",
   "search_prediction_market_tweets", "get_platform_tweets",
   "get_tweet_details", "get_mentions", "compose_market_tweet",
   "compose_arbitrage_tweet", "like_tweet", "retweet"]

/-- Trading tool-name set consulted by _execute_tool (agent.py
lines 215-218). -/
def tradingToolNames : List String :=
  ["execute_arbitrage_trade", "place_trade", "get_portfolio_status",
   "close_position", "check_risk_limits"]

/-- PredictionMarketAgent._execute_tool (agent.py lines 204-273).
Twitter names route through TwitterTools.execute and are re-wrapped
via the dict-get defaults of lines 228-232: `success` defaults to True
but the outer dict always carries it, `data` falls back to the whole
outer dict when absent, `error` defaults to None.  Trading names
(dynamic import plus risk machinery, lines 234-270) and market tools
(line 273) are abstracted as oracles — no claim depends on their
internals. -/
def agentExecuteTool (twitter : Option TwState)
    (tradingExec : String → TwArgs → ToolResult)
    (marketExec : String → TwArgs → ToolResult)
    (name : String) (args : TwArgs) : ToolResult :=
  if name ∈ twitterToolNames then
    match twitter with
    | none => { success := false, data := none
                error := some "Twitter tools not enabled" }
    | some tw =>
        let result := twExecute tw name args
        { success := result.success
          data := match result.data with
                  | some v => some (.tw v)
                  | none => some (.twOuter result)
          error := result.error }
  else if name ∈ tradingToolNames then
    tradingExec name args
  else
    marketExec name args

/-- Tool-call block extracted from an LLM response
(agent.py lines 365-386 normalise both providers to this shape). -/
structure ToolCallMsg where
  id : String
  name : String
  arguments : TwArgs
deriving DecidableEq, Repr

/-- Normalised LLM response: ordered tool calls plus text
(agent.py _extract_tool_calls / _extract_text). -/
structure LLMResponse where
  toolCalls : List ToolCallMsg
  text : String
deriving DecidableEq, Repr

/-- Conversation message shapes appended by the loop
(agent.py _build_messages, _response_to_message, _tool_result_message). -/
inductive ChatMsg where
  | system (content : String)
  | user (content : String)
  | assistant (resp : LLMResponse)
  | toolResult (tool_use_id : String) (content : String)
deriving DecidableEq, Repr

/-- One outbound LLM request.  `withTools` records whether the request
carried the tool schemas: _call_anthropic (agent.py lines 304-311) and
_call_openai (lines 315-321) both unconditionally attach
`tools=self._get_*_tools()`, so every request built by _call_llm has
`withTools = true`. -/
structure LLMRequest where
  msgs : List ChatMsg
  withTools : Bool
deriving DecidableEq, Repr

/-- Tool-execution segment of one loop round (agent.py lines 147-156):
each call is executed in order, yielding the tool-result messages to
append and the (call, result) execution log entries. -/
def execRound (execTool : String → TwArgs → ToolResult) :
    List ToolCallMsg → List ChatMsg × List (ToolCallMsg × ToolResult)
  | [] => ([], [])
  | tc :: rest =>
      let r := execTool tc.name tc.arguments
      (ChatMsg.toolResult tc.id r.to_message :: (execRound execTool rest).1,
        (tc, r) :: (execRound execTool rest).2)

/-- Body of the while loop of _run_agent_loop (agent.py lines 129-160),
instrumented with the ordered log of LLM requests and of executed tool
calls.  `tool_calls_count` grows by the number of calls in the round
(checked only at the loop head); on exhaustion one more LLM request is
issued and its text returned. -/
def loopGo (llm : List ChatMsg → LLMResponse)
    (execTool : String → TwArgs → ToolResult) (maxCalls : ℕ)
    (msgs : List ChatMsg) (count : ℕ)
    (reqs : List LLMRequest) (execs : List (ToolCallMsg × ToolResult)) :
    String × List LLMRequest × List (ToolCallMsg × ToolResult) :=
  if h : count < maxCalls then
    let resp := llm msgs
    let reqs' := reqs ++ [{ msgs := msgs, withTools := true }]
    match resp.toolCalls with
    | [] => (resp.text, reqs', execs)
    | tc :: rest =>
        loopGo llm execTool maxCalls
          (msgs ++ [ChatMsg.assistant resp] ++ (execRound execTool (tc :: rest)).1)
          (count + (tc :: rest).length) reqs'
          (execs ++ (execRound execTool (tc :: rest)).2)
  else
    let resp := llm msgs
    (resp.text, reqs ++ [{ msgs := msgs, withTools := true }], execs)
termination_by maxCalls - count
decreasing_by simp only [List.length_cons]; omega

/-- PredictionMarketAgent._run_agent_loop (agent.py lines 129-160),
started from _build_messages (lines 195-202): the system prompt
followed by the rolling history. -/
def runAgentLoop (llm : List ChatMsg → LLMResponse)
    (execTool : String → TwArgs → ToolResult) (maxCalls : ℕ)
    (systemPrompt : String) (history : List ChatMsg) :
    String × List LLMRequest × List (ToolCallMsg × ToolResult) :=
  loopGo llm execTool maxCalls (ChatMsg.system systemPrompt :: history) 0 [] []

/-- Default tool-call budget AgentConfig.max_tool_calls
(src/agent/config.py line 40). -/
def defaultMaxToolCalls : ℕ := 10

/-! ### Observers and test fixtures used by the theorems -/

/-- Dict lookup over the platform-keyed result map returned by
searchAll. -/
def resultsFor (p : Platform) : List (Platform × List Market) → Option (List Market)
  | [] => none
  | e :: rest => if e.1 = p then some e.2 else resultsFor p rest

/-- Specification-side round-robin interleaving (spec section 4.5):
index 0 of every source, then index 1, and so on. -/
def roundRobin (platform_results : List (Platform × List Market)) : List Market :=
  (List.range ((platform_results.map (fun pr => pr.2.length)).foldr max 0)).flatMap
    (fun i => platform_results.filterMap (fun pr => pr.2.get? i))

/-- Properties that considerPair enforces on every opportunity it emits
for the pair (m1, m2). -/
def pairProps (min_spread : ℚ) (m1 m2 : Market) (o : Opportunity) : Prop :=
  o.market1 = m1 ∧ o.market2 = m2 ∧
  m1.platform ≠ m2.platform ∧
  o.similarity = similarityScore m1.title m2.title ∧
  ¬ o.similarity < 1/2 ∧
  o.spread = |m1.probability.getD 0 - m2.probability.getD 0| ∧
  min_spread ≤ o.spread

/-- Role swap of the two matched snapshots inside an opportunity. -/
def swapOpp (o : Opportunity) : Opportunity :=
  { market1 := o.market2, market2 := o.market1
    spread := o.spread, similarity := o.similarity }

/-- Error message stored in a Twitter handler payload (the dict's
"error" key, or the "error" key of the first dict of a list payload). -/
def twErrorOf : TwValue → Option String
  | .dict d => d.error
  | .list ds => ds.head?.bind (fun d => d.error)

/-- Snapshot of spec Scenario A on the first source. -/
def electionMarket1 : Market :=
  { id := "manifold-1", platform := Platform.manifold
    title := "Will X win the election", probability := some (62/100)
    is_resolved := false, close_time := none }

/-- Snapshot of spec Scenario A on the second source. -/
def electionMarket2 : Market :=
  { id := "metaculus-2", platform := Platform.metaculus
    title := "X to win election", probability := some (7/10)
    is_resolved := false, close_time := none }

/-- Opportunity that Scenario A reports. -/
def electionOpp : Opportunity :=
  { market1 := electionMarket1, market2 := electionMarket2
    spread := 2/25, similarity := 1 }

/-- Opportunity reported when the Scenario A snapshots arrive in the
opposite order. -/
def electionOppSwapped : Opportunity :=
  { market1 := electionMarket2, market2 := electionMarket1
    spread := 2/25, similarity := 1 }

/-- Test model that requests one tool call in every response. -/
def llmAlwaysTool : List ChatMsg → LLMResponse :=
  fun _ => { toolCalls := [{ id := "call-1", name := "search_markets"
                             arguments := {} }]
             text := "searching" }

/-- Test tool executor that always succeeds. -/
def execOk : String → TwArgs → ToolResult :=
  fun _ _ => { success := true, data := some (.raw "ok"), error := none }

/-- First tool call of spec Scenario C. -/
def tcA : ToolCallMsg := { id := "c1", name := "get_trending_markets", arguments := {} }

/-- Second tool call of spec Scenario C. -/
def tcB : ToolCallMsg := { id := "c2", name := "search_markets", arguments := {} }

/-- Test model for spec Scenario C: two tool calls in the first
response (the seeded message list has two entries), none afterwards. -/
def llmTwoCalls : List ChatMsg → LLMResponse :=
  fun ms =>
    if ms.length ≤ 2 then { toolCalls := [tcA, tcB], text := "planning" }
    else { toolCalls := [], text := "final answer" }

/-! ## Theorems -/

/-! ### ConversationMemory lemmas -/

/-- dictGet finds a matching head. -/
theorem dictGet_cons_self (market_id : String) (v : MarketContext)
    (rest : List (String × MarketContext)) :
    dictGet market_id ((market_id, v) :: rest) = some v := by
  simp [dictGet]

/-- dictGet skips a non-matching head. -/
theorem dictGet_cons_ne (k market_id : String) (v : MarketContext)
    (rest : List (String × MarketContext)) (hk : ¬ k = market_id) :
    dictGet market_id ((k, v) :: rest) = dictGet market_id rest := by
  simp [dictGet, hk]

/-- Looking a key up after the in-place update map of trackMarket
rewrites the stored context pointwise. -/
theorem lookup_map_update (market_id : String) (f : MarketContext → MarketContext) :
    ∀ (l : List (String × MarketContext)) (ctx : MarketContext),
      dictGet market_id l = some ctx →
      dictGet market_id (l.map (fun e => if e.1 = market_id then (e.1, f e.2) else e))
        = some (f ctx) := by
  intro l
  induction l with
  | nil => intro ctx h; simp [dictGet] at h
  | cons e rest ih =>
      intro ctx h
      obtain ⟨k, v⟩ := e
      rw [List.map_cons]
      by_cases hk : k = market_id
      · rw [hk] at h ⊢
        rw [dictGet_cons_self] at h
        have hv : v = ctx := Option.some.inj h
        subst hv
        rw [if_pos rfl]
        exact dictGet_cons_self market_id (f v) _
      · rw [dictGet_cons_ne k market_id v rest hk] at h
        rw [if_neg hk]
        rw [dictGet_cons_ne k market_id v _ hk]
        exact ih ctx h

/-- Folding the Python `min(..., key=last_accessed)` over a list yields
an element of the candidates that is minimal for `last_accessed`. -/
theorem foldl_oldest_spec :
    ∀ (l : List (String × MarketContext)) (e : String × MarketContext),
      (l.foldl (fun best x =>
          if x.2.last_accessed < best.2.last_accessed then x else best) e) ∈ e :: l ∧
      (l.foldl (fun best x =>
          if x.2.last_accessed < best.2.last_accessed then x else best) e).2.last_accessed
        ≤ e.2.last_accessed ∧
      ∀ x ∈ l,
        (l.foldl (fun best x =>
            if x.2.last_accessed < best.2.last_accessed then x else best)
          e).2.last_accessed ≤ x.2.last_accessed := by
  intro l
  induction l with
  | nil => simp
  | cons x rest ih =>
      intro e
      by_cases hx : x.2.last_accessed < e.2.last_accessed
      · obtain ⟨hmem, hle, hall⟩ := ih x
        refine ⟨?_, ?_, ?_⟩
        · simp only [List.foldl_cons, if_pos hx]
          exact List.mem_cons_of_mem e hmem
        · simp only [List.foldl_cons, if_pos hx]
          omega
        · intro y hy
          simp only [List.foldl_cons, if_pos hx]
          rcases List.mem_cons.mp hy with rfl | hy
          · exact hle
          · exact hall y hy
      · obtain ⟨hmem, hle, hall⟩ := ih e
        refine ⟨?_, ?_, ?_⟩
        · simp only [List.foldl_cons, if_neg hx]
          rcases List.mem_cons.mp hmem with h | h
          · exact List.mem_cons.mpr (Or.inl h)
          · exact List.mem_cons.mpr (Or.inr (List.mem_cons.mpr (Or.inr h)))
        · simp only [List.foldl_cons, if_neg hx]
          exact hle
        · intro y hy
          simp only [List.foldl_cons, if_neg hx]
          rcases List.mem_cons.mp hy with rfl | hy
          · omega
          · exact hall y hy

/-- oldestEntry of a non-empty context list returns a member whose
`last_accessed` is minimal. -/
theorem oldestEntry_spec (l : List (String × MarketContext)) (hne : l ≠ []) :
    ∃ ev, oldestEntry l = some ev ∧ ev ∈ l ∧
      ∀ x ∈ l, ev.2.last_accessed ≤ x.2.last_accessed := by
  match l, hne with
  | e :: rest, _ =>
      obtain ⟨hmem, hle, hall⟩ := foldl_oldest_spec rest e
      refine ⟨_, rfl, hmem, ?_⟩
      intro x hx
      rcases List.mem_cons.mp hx with rfl | hx
      · exact hle
      · exact hall x hx

/-- C10: when track_market is called for a market_id already present in
the context, a price argument of 0.0 or absent leaves the stored
last_price at its previous value (only a non-zero, non-None price
overwrites it), while last_accessed is refreshed regardless. -/
theorem c10_track_market_price_truthiness
    (mem : ConversationMemory) (now : ℕ) (market_id title : String)
    (price : Option ℚ) (ctx : MarketContext)
    (h : dictGet market_id mem.market_context = some ctx) :
    ∃ ctx',
      dictGet market_id (trackMarket mem now market_id title price).market_context
        = some ctx' ∧
      ctx'.last_accessed = now ∧
      ((price = none ∨ price = some 0) → ctx'.last_price = ctx.last_price) ∧
      (∀ p : ℚ, price = some p → p ≠ 0 → ctx'.last_price = some p) := by
  refine ⟨{ ctx with last_price := pyOrPrice price ctx.last_price
                     last_accessed := now }, ?_, rfl, ?_, ?_⟩
  · unfold trackMarket
    rw [h]
    exact lookup_map_update market_id
      (fun c => { c with last_price := pyOrPrice price c.last_price
                         last_accessed := now })
      mem.market_context ctx h
  · rintro (rfl | rfl) <;> simp [pyOrPrice]
  · intro p hp hne
    subst hp
    simp [pyOrPrice, hne]

/-- Witness for C10 at a concrete one-entry memory updated with price 0. -/
theorem c10_witness :
    (dictGet "m1" ((⟨20, [("m1", ⟨"m1", "T", some (1/2), 5⟩)]⟩ :
        ConversationMemory)).market_context
      = some ⟨"m1", "T", some (1/2), 5⟩) ∧
    ∃ ctx',
      dictGet "m1" (trackMarket ⟨20, [("m1", ⟨"m1", "T", some (1/2), 5⟩)]⟩ 9 "m1" "T2"
          (some 0)).market_context = some ctx' ∧
      ctx'.last_accessed = 9 ∧
      ((some (0:ℚ) = none ∨ some (0:ℚ) = some 0) →
        ctx'.last_price = (⟨"m1", "T", some (1/2), 5⟩ : MarketContext).last_price) ∧
      (∀ p : ℚ, some (0:ℚ) = some p → p ≠ 0 → ctx'.last_price = some p) :=
  ⟨rfl, c10_track_market_price_truthiness
    ⟨20, [("m1", ⟨"m1", "T", some (1/2), 5⟩)]⟩ 9 "m1" "T2" (some 0)
    ⟨"m1", "T", some (1/2), 5⟩ rfl⟩

/-- C6: an insertion of a fresh market id performed while the context
map is at capacity evicts exactly the entry with the oldest
last_accessed (never a more recently accessed one), and with capacity 2
tracking "A", "B", "C" in order leaves the context set exactly
{"B", "C"}. -/
theorem c6_eviction_correctness
    (mem : ConversationMemory) (now : ℕ) (market_id title : String)
    (price : Option ℚ)
    (h1 : dictGet market_id mem.market_context = none)
    (h2 : mem.market_context.length ≥ mem.max_market_context)
    (h3 : mem.market_context ≠ []) :
    (∃ ev, oldestEntry mem.market_context = some ev ∧
      ev ∈ mem.market_context ∧
      (∀ e ∈ mem.market_context, ev.2.last_accessed ≤ e.2.last_accessed) ∧
      (trackMarket mem now market_id title price).market_context =
        mem.market_context.eraseP (fun e => e.1 = ev.1) ++
          [(market_id, ⟨market_id, title, price, now⟩)]) ∧
    (trackMarket (trackMarket (trackMarket ⟨2, []⟩ 1 "A" "tA" none)
        2 "B" "tB" none) 3 "C" "tC" none).market_context.map Prod.fst
      = ["B", "C"] := by
  obtain ⟨ev, hev, hmem, hmin⟩ := oldestEntry_spec mem.market_context h3
  refine ⟨⟨ev, hev, hmem, hmin, ?_⟩, by decide⟩
  unfold trackMarket
  rw [h1]
  simp only [if_pos h2, hev]

/-! ### MarketAggregator.search_all -/

/-- searchPlatform tags its result with the platform it was asked for. -/
theorem searchPlatform_fst (clients : Clients) (query : String) (limit : ℕ)
    (p : Platform) : (searchPlatform clients query limit p).1 = p := by
  rcases hcf : clientFor clients p with _ | c
  · simp [searchPlatform, hcf]
  · rcases hs : c.search_markets query limit with e | ms
    · simp [searchPlatform, hcf, hs]
    · simp [searchPlatform, hcf, hs]

/-- resultsFor over the searchAll worker map: every requested configured
platform is mapped to its own isolated worker result. -/
theorem resultsFor_searchAll_map (clients : Clients) (query : String) (limit : ℕ) :
    ∀ (ts : List Platform) (p : Platform), p ∈ ts →
      (clientFor clients p).isSome →
      resultsFor p ((ts.filter (fun q => (clientFor clients q).isSome)).map
          (searchPlatform clients query limit))
        = some (searchPlatform clients query limit p).2 := by
  intro ts
  induction ts with
  | nil => intro p hp; simp at hp
  | cons q ts ih =>
      intro p hp hconf
      rcases List.mem_cons.mp hp with rfl | hp'
      · rw [List.filter_cons, if_pos (by simpa using hconf), List.map_cons]
        simp [resultsFor, searchPlatform_fst]
      · by_cases hq : (clientFor clients q).isSome
        · rw [List.filter_cons, if_pos (by simpa using hq), List.map_cons]
          by_cases hqp : q = p
          · subst hqp
            simp [resultsFor, searchPlatform_fst]
          · simp only [resultsFor, searchPlatform_fst, if_neg hqp]
            exact ih p hp' hconf
        · rw [List.filter_cons, if_neg (by simpa using hq)]
          exact ih p hp' hconf

/-- C3: for every configured requested source set, a raising source is
mapped to the empty list while a non-raising source keeps its own
results unchanged, and every requested configured source has an entry
in the map returned by search_all (exceptions never escape: searchAll
is a total function of its inputs). -/
theorem c3_search_all_source_isolation (clients : Clients) (query : String)
    (limit : ℕ) (targets : List Platform) (p : Platform) (c : PlatformClient)
    (hp : p ∈ targets) (hc : clientFor clients p = some c) :
    (resultsFor p (searchAll clients query limit (some targets))).isSome ∧
    (∀ e, c.search_markets query limit = Except.error e →
      resultsFor p (searchAll clients query limit (some targets)) = some []) ∧
    (∀ ms, c.search_markets query limit = Except.ok ms →
      resultsFor p (searchAll clients query limit (some targets)) = some ms) := by
  have hts : targetPlatforms clients (some targets) = targets := by
    cases targets with
    | nil => exact absurd hp (by simp)
    | cons t ts => rfl
  have hbase := resultsFor_searchAll_map clients query limit targets p hp
    (by rw [hc]; rfl)
  rw [show searchAll clients query limit (some targets)
      = (targets.filter (fun q => (clientFor clients q).isSome)).map
          (searchPlatform clients query limit) from by
    unfold searchAll
    rw [hts]]
  refine ⟨by rw [hbase]; rfl, ?_, ?_⟩
  · intro e he
    rw [hbase]
    simp [searchPlatform, hc, he]
  · intro ms hms
    rw [hbase]
    simp [searchPlatform, hc, hms]

/-- Witness for C3 with one configured source whose search raises. -/
theorem c3_witness :
    (Platform.manifold ∈ [Platform.manifold]) ∧
    (clientFor [(Platform.manifold,
        (⟨fun _ _ => Except.error "boom", fun _ => Except.error "down"⟩ :
          PlatformClient))] Platform.manifold
      = some ⟨fun _ _ => Except.error "boom", fun _ => Except.error "down"⟩) ∧
    resultsFor Platform.manifold
      (searchAll [(Platform.manifold,
        (⟨fun _ _ => Except.error "boom", fun _ => Except.error "down"⟩ :
          PlatformClient))] "q" 10 (some [Platform.manifold])) = some [] :=
  ⟨by simp, rfl,
    (c3_search_all_source_isolation
      [(Platform.manifold,
        ⟨fun _ _ => Except.error "boom", fun _ => Except.error "down"⟩)]
      "q" 10 [Platform.manifold] Platform.manifold
      ⟨fun _ _ => Except.error "boom", fun _ => Except.error "down"⟩
      (by simp) rfl).2.1 "boom" rfl⟩

/-! ### MarketAggregator.search_all_flat -/

/-- flatInner appends the i-th element of every source in order,
returning early exactly when the running list reaches the limit; the
early return truncates the row at the limit. -/
theorem flatInner_eq (limit i : ℕ) :
    ∀ (results : List (Platform × List Market)) (acc : List Market),
      acc.length < limit →
      flatInner limit i results acc =
        (if limit ≤ (acc ++ results.filterMap (fun pr => pr.2.get? i)).length then
          ((acc ++ results.filterMap (fun pr => pr.2.get? i)).take limit, true)
        else (acc ++ results.filterMap (fun pr => pr.2.get? i), false)) := by
  intro results
  induction results with
  | nil =>
      intro acc hacc
      rw [flatInner]
      rw [List.filterMap_nil, List.append_nil, if_neg (by omega)]
  | cons e rest ih =>
      intro acc hacc
      rcases hget : e.2.get? i with _ | m
      · have lhs_eq : flatInner limit i (e :: rest) acc = flatInner limit i rest acc := by
          rw [flatInner, hget]
        rw [lhs_eq, @List.filterMap_cons_none _ _ (fun pr => pr.2.get? i) e rest hget]
        exact ih acc hacc
      · have lhs_eq : flatInner limit i (e :: rest) acc =
            (if (acc ++ [m]).length ≥ limit then (acc ++ [m], true)
             else flatInner limit i rest (acc ++ [m])) := by
          rw [flatInner, hget]
        rw [lhs_eq, @List.filterMap_cons_some _ _ (fun pr => pr.2.get? i) e rest m hget]
        have hgrp : acc ++ m :: rest.filterMap (fun pr => pr.2.get? i)
            = (acc ++ [m]) ++ rest.filterMap (fun pr => pr.2.get? i) := by simp
        by_cases hfull : limit ≤ (acc ++ [m]).length
        · have hlim : limit = (acc ++ [m]).length := by
            simp only [List.length_append, List.length_singleton] at hfull ⊢
            omega
          rw [if_pos hfull]
          rw [if_pos (by rw [hgrp, List.length_append]; omega)]
          rw [hgrp, hlim, List.take_left]
        · rw [if_neg hfull]
          have hlen : (acc ++ [m]).length < limit := by omega
          rw [ih (acc ++ [m]) hlen, hgrp]

/-- flatOuter computes the take-limit truncation of the full round-robin
interleaving of the remaining rows. -/
theorem flatOuter_eq (limit : ℕ) (results : List (Platform × List Market)) :
    ∀ (idxs : List ℕ) (acc : List Market), acc.length < limit →
      flatOuter limit results idxs acc =
        (acc ++ idxs.flatMap
          (fun i => results.filterMap (fun pr => pr.2.get? i))).take limit := by
  intro idxs
  induction idxs with
  | nil =>
      intro acc hacc
      rw [flatOuter]
      simp
  | cons i idxs ih =>
      intro acc hacc
      rw [flatOuter, flatInner_eq limit i results acc hacc]
      by_cases hfull : limit ≤ (acc ++ results.filterMap (fun pr => pr.2.get? i)).length
      · rw [if_pos hfull]
        show (acc ++ results.filterMap (fun pr => pr.2.get? i)).take limit = _
        rw [List.flatMap_cons, show acc ++ (results.filterMap (fun pr => pr.2.get? i) ++
            idxs.flatMap (fun i => results.filterMap (fun pr => pr.2.get? i)))
          = (acc ++ results.filterMap (fun pr => pr.2.get? i)) ++
            idxs.flatMap (fun i => results.filterMap (fun pr => pr.2.get? i)) from by simp]
        rw [List.take_append_of_le_length hfull]
      · rw [if_neg hfull]
        show flatOuter limit results idxs (acc ++ results.filterMap (fun pr => pr.2.get? i)) = _
        have hlen : (acc ++ results.filterMap (fun pr => pr.2.get? i)).length < limit := by
          omega
        rw [ih _ hlen, List.flatMap_cons, List.append_assoc]

/-- C9 counterexample: with requested limit 0 and a source holding one
market, search_all_flat returns that market — the output length exceeds
the limit, because the stop check runs only after an element has been
appended. -/
theorem c9_counterexample :
    ¬ ((searchAllFlat [(Platform.manifold,
        ⟨fun _ _ => Except.ok
            [⟨"manifold-1", Platform.manifold, "t", some (1/2), false, none⟩],
          fun _ => Except.error "x"⟩)] "q" 0 none).length ≤ 0) := by
  decide

/-- C9 (amended): for every positive limit, search_all_flat equals the
round-robin interleaving of the per-source result lists (element 0 of
every source, then element 1, and so on) truncated at the limit, so it
stops as soon as the limit is reached and its output length never
exceeds the limit.  (With limit = 0 one element can still be emitted,
as the counterexample shows; the non-empty registry hypothesis mirrors
Python's division by the number of enabled platforms.) -/
theorem c9_amended_round_robin (clients : Clients) (query : String) (limit : ℕ)
    (platforms : Option (List Platform)) (hpos : 1 ≤ limit)
    (_hconf : clients ≠ []) :
    searchAllFlat clients query limit platforms =
      (roundRobin (searchAll clients query
          (max (limit / (enabledPlatforms clients).length) 10) platforms)).take limit ∧
    (searchAllFlat clients query limit platforms).length ≤ limit := by
  have key : searchAllFlat clients query limit platforms =
      (roundRobin (searchAll clients query
          (max (limit / (enabledPlatforms clients).length) 10) platforms)).take limit := by
    unfold searchAllFlat roundRobin
    rw [flatOuter_eq limit _ _ [] (by simp only [List.length_nil]; omega)]
    simp
  refine ⟨key, ?_⟩
  rw [key]
  exact List.length_take_le limit _

/-- Witness for C9 (amended) on a single-source registry with two
markets and limit 1. -/
theorem c9_witness :
    (1 ≤ 1) ∧
    ([(Platform.manifold, (⟨fun _ _ => Except.ok
        [⟨"manifold-1", Platform.manifold, "t1", some (1/2), false, none⟩,
         ⟨"manifold-2", Platform.manifold, "t2", some (1/4), false, none⟩],
        fun _ => Except.error "x"⟩ : PlatformClient))] : Clients) ≠ [] ∧
    (searchAllFlat [(Platform.manifold, ⟨fun _ _ => Except.ok
        [⟨"manifold-1", Platform.manifold, "t1", some (1/2), false, none⟩,
         ⟨"manifold-2", Platform.manifold, "t2", some (1/4), false, none⟩],
        fun _ => Except.error "x"⟩)] "q" 1 none =
      (roundRobin (searchAll [(Platform.manifold, ⟨fun _ _ => Except.ok
        [⟨"manifold-1", Platform.manifold, "t1", some (1/2), false, none⟩,
         ⟨"manifold-2", Platform.manifold, "t2", some (1/4), false, none⟩],
        fun _ => Except.error "x"⟩)] "q"
          (max (1 / (enabledPlatforms [(Platform.manifold, ⟨fun _ _ => Except.ok
            [⟨"manifold-1", Platform.manifold, "t1", some (1/2), false, none⟩,
             ⟨"manifold-2", Platform.manifold, "t2", some (1/4), false, none⟩],
            fun _ => Except.error "x"⟩)]).length) 10) none)).take 1 ∧
      (searchAllFlat [(Platform.manifold, ⟨fun _ _ => Except.ok
        [⟨"manifold-1", Platform.manifold, "t1", some (1/2), false, none⟩,
         ⟨"manifold-2", Platform.manifold, "t2", some (1/4), false, none⟩],
        fun _ => Except.error "x"⟩)] "q" 1 none).length ≤ 1) :=
  ⟨le_refl 1, List.cons_ne_nil _ _,
    c9_amended_round_robin _ "q" 1 none (le_refl 1) (List.cons_ne_nil _ _)⟩

/-! ### MarketAggregator.get_market routing -/

/-- The probe loop returns absent when every configured client raises. -/
theorem probeClients_all_error (market_id : String) :
    ∀ clients : List (Platform × PlatformClient),
      (∀ pc ∈ clients, ∃ e, pc.2.get_market market_id = Except.error e) →
      (probeClients market_id clients).1 = none := by
  intro clients
  induction clients with
  | nil => intro _; rfl
  | cons pc rest ih =>
      intro hall
      obtain ⟨q, d⟩ := pc
      obtain ⟨e, he⟩ := hall (q, d) (List.mem_cons_self _ _)
      rw [probeClients, he]
      exact ih (fun x hx => hall x (List.mem_cons_of_mem _ hx))

/-- The probe loop returns the market of the first non-raising client. -/
theorem probeClients_first_hit (market_id : String) :
    ∀ (l1 l2 : List (Platform × PlatformClient)) (q : Platform)
      (d : PlatformClient) (m : Market),
      (∀ pc ∈ l1, ∃ e, pc.2.get_market market_id = Except.error e) →
      d.get_market market_id = Except.ok m →
      (probeClients market_id (l1 ++ (q, d) :: l2)).1 = some m := by
  intro l1
  induction l1 with
  | nil =>
      intro l2 q d m _ hok
      rw [List.nil_append, probeClients, hok]
  | cons pc rest ih =>
      intro l2 q d m hall hok
      obtain ⟨p', c'⟩ := pc
      obtain ⟨e, he⟩ := hall (p', c') (List.mem_cons_self _ _)
      rw [List.cons_append, probeClients, he]
      exact ih l2 q d m (fun x hx => hall x (List.mem_cons_of_mem _ hx)) hok

/-- C5 counterexample: a market_id with the recognized manifold- prefix
whose configured manifold client raises makes get_market query the
metaculus client as well (and return its market) — not only the
prefix-named source's client. -/
theorem c5_counterexample :
    Platform.metaculus ∈
      (getMarket [(Platform.manifold,
          ⟨fun _ _ => Except.error "s", fun _ => Except.error "down"⟩),
        (Platform.metaculus,
          ⟨fun _ _ => Except.error "s", fun _ => Except.ok
            ⟨"manifold-abc", Platform.metaculus, "t", some (1/2), false, none⟩⟩)]
        "manifold-abc").2 ∧
    detectPlatform "manifold-abc" = some Platform.manifold := by
  constructor
  · decide
  · decide

/-- C5 (amended): when the prefix names a recognized, configured source
whose call succeeds, get_market queries only that source's client and
returns its market; when the recognized source's call raises, when the
recognized source is unconfigured, and likewise when the prefix is
unrecognized, get_market probes every configured source in registry
order and returns the market of the first client that does not raise,
or absent when every client raises. -/
theorem c5_amended_routing (clients : Clients) (market_id : String)
    (p : Platform) (c : PlatformClient) :
    (detectPlatform market_id = some p → clientFor clients p = some c →
      (∀ m, c.get_market market_id = Except.ok m →
        getMarket clients market_id = (some m, [p])) ∧
      (∀ e, c.get_market market_id = Except.error e →
        getMarket clients market_id =
          ((probeClients market_id clients).1,
            p :: (probeClients market_id clients).2))) ∧
    (detectPlatform market_id = some p → clientFor clients p = none →
      getMarket clients market_id = probeClients market_id clients) ∧
    (detectPlatform market_id = none →
      getMarket clients market_id = probeClients market_id clients) ∧
    ((∀ pc ∈ clients, ∃ e, pc.2.get_market market_id = Except.error e) →
      (probeClients market_id clients).1 = none) ∧
    (∀ (l1 l2 : List (Platform × PlatformClient)) (q : Platform)
        (d : PlatformClient) (m : Market),
      clients = l1 ++ (q, d) :: l2 →
      (∀ pc ∈ l1, ∃ e, pc.2.get_market market_id = Except.error e) →
      d.get_market market_id = Except.ok m →
      (probeClients market_id clients).1 = some m) := by
  refine ⟨?_, ?_, ?_, probeClients_all_error market_id clients, ?_⟩
  · intro hdet hconf
    constructor
    · intro m hok
      simp only [getMarket, hdet, hconf, hok]
    · intro e herr
      simp only [getMarket, hdet, hconf, herr]
  · intro hdet hnone
    simp only [getMarket, hdet, hnone]
  · intro hdet
    simp only [getMarket, hdet]
  · intro l1 l2 q d m hsplit hall hok
    rw [hsplit]
    exact probeClients_first_hit market_id l1 l2 q d m hall hok

/-- Witness for C5 (amended): recognized configured prefix with a
succeeding client queries only that client. -/
theorem c5_witness :
    detectPlatform "pm-7" = some Platform.polymarket ∧
    clientFor [(Platform.polymarket,
        (⟨fun _ _ => Except.error "s", fun _ => Except.ok
          ⟨"pm-7", Platform.polymarket, "t", some (1/3), false, none⟩⟩ :
            PlatformClient))] Platform.polymarket
      = some ⟨fun _ _ => Except.error "s", fun _ => Except.ok
          ⟨"pm-7", Platform.polymarket, "t", some (1/3), false, none⟩⟩ ∧
    getMarket [(Platform.polymarket,
        ⟨fun _ _ => Except.error "s", fun _ => Except.ok
          ⟨"pm-7", Platform.polymarket, "t", some (1/3), false, none⟩⟩)] "pm-7"
      = (some ⟨"pm-7", Platform.polymarket, "t", some (1/3), false, none⟩,
          [Platform.polymarket]) :=
  ⟨by decide, rfl,
    ((c5_amended_routing [(Platform.polymarket,
        ⟨fun _ _ => Except.error "s", fun _ => Except.ok
          ⟨"pm-7", Platform.polymarket, "t", some (1/3), false, none⟩⟩)] "pm-7"
        Platform.polymarket
        ⟨fun _ _ => Except.error "s", fun _ => Except.ok
          ⟨"pm-7", Platform.polymarket, "t", some (1/3), false, none⟩⟩).1
      (by decide) rfl).1
      ⟨"pm-7", Platform.polymarket, "t", some (1/3), false, none⟩ rfl⟩

/-! ### C6 witness (requires the aggregator section's theorems above) -/

/-- Witness for C6 at a concrete capacity-2 memory holding entries
accessed at times 1 and 2, receiving a fresh id at time 3. -/
theorem c6_witness :
    dictGet "C" [("A", (⟨"A", "tA", none, 1⟩ : MarketContext)),
        ("B", ⟨"B", "tB", none, 2⟩)] = none ∧
    ([("A", (⟨"A", "tA", none, 1⟩ : MarketContext)),
        ("B", ⟨"B", "tB", none, 2⟩)].length ≥ (2 : ℕ)) ∧
    [("A", (⟨"A", "tA", none, 1⟩ : MarketContext)),
        ("B", ⟨"B", "tB", none, 2⟩)] ≠ [] ∧
    ((∃ ev, oldestEntry [("A", (⟨"A", "tA", none, 1⟩ : MarketContext)),
          ("B", ⟨"B", "tB", none, 2⟩)] = some ev ∧
        ev ∈ [("A", (⟨"A", "tA", none, 1⟩ : MarketContext)),
          ("B", ⟨"B", "tB", none, 2⟩)] ∧
        (∀ e ∈ [("A", (⟨"A", "tA", none, 1⟩ : MarketContext)),
          ("B", ⟨"B", "tB", none, 2⟩)], ev.2.last_accessed ≤ e.2.last_accessed) ∧
        (trackMarket ⟨2, [("A", ⟨"A", "tA", none, 1⟩), ("B", ⟨"B", "tB", none, 2⟩)]⟩
            3 "C" "tC" none).market_context =
          [("A", (⟨"A", "tA", none, 1⟩ : MarketContext)),
            ("B", ⟨"B", "tB", none, 2⟩)].eraseP (fun e => e.1 = ev.1) ++
            [("C", ⟨"C", "tC", none, 3⟩)]) ∧
      (trackMarket (trackMarket (trackMarket ⟨2, []⟩ 1 "A" "tA" none)
          2 "B" "tB" none) 3 "C" "tC" none).market_context.map Prod.fst
        = ["B", "C"]) :=
  ⟨by decide, by decide, by decide,
    c6_eviction_correctness
      ⟨2, [("A", ⟨"A", "tA", none, 1⟩), ("B", ⟨"B", "tB", none, 2⟩)]⟩
      3 "C" "tC" none (by decide) (by decide) (by decide)⟩

/-! ### ArbitrageMatcher (find_arbitrage) -/

/-- Every opportunity considerPair adds for the pair (m1, m2) satisfies
the filter conditions of the scan. -/
theorem considerPair_sound (min_spread : ℚ) (m1 m2 : Market)
    (st : List (String × String) × List Opportunity) (o : Opportunity)
    (ho : o ∈ (considerPair min_spread st m1 m2).2) :
    o ∈ st.2 ∨ pairProps min_spread m1 m2 o := by
  simp only [considerPair] at ho
  split_ifs at ho with h1 h2 h3 h4 h5
  · exact Or.inl ho
  · exact Or.inl ho
  · exact Or.inl ho
  · exact Or.inl ho
  · rcases List.mem_append.mp ho with hin | hnew
    · exact Or.inl hin
    · have ho' : o = { market1 := m1, market2 := m2
                       spread := |m1.probability.getD 0 - m2.probability.getD 0|
                       similarity :=
                         ((keyWords m1.title ∩ keyWords m2.title).card : ℚ) /
                           ((min (keyWords m1.title).card (keyWords m2.title).card : ℕ) :
                             ℚ) } := by
        simpa using hnew
      subst ho'
      exact Or.inr ⟨rfl, rfl, h1, rfl, h3, rfl, h4⟩
  · exact Or.inl ho

/-- Opportunities produced by the inner pair loop come from the incoming
state or pair m1 with some later snapshot. -/
theorem innerPairs_sound (min_spread : ℚ) (m1 : Market) :
    ∀ (rest : List Market) (st : List (String × String) × List Opportunity)
      (o : Opportunity),
      o ∈ (innerPairs min_spread m1 rest st).2 →
      o ∈ st.2 ∨ ∃ m2 ∈ rest, pairProps min_spread m1 m2 o := by
  intro rest
  induction rest with
  | nil =>
      intro st o ho
      exact Or.inl ho
  | cons m2 rest ih =>
      intro st o ho
      rw [innerPairs, List.foldl_cons] at ho
      rcases ih (considerPair min_spread st m1 m2) o ho with hin | ⟨m2', hm2', hp⟩
      · rcases considerPair_sound min_spread m1 m2 st o hin with h | h
        · exact Or.inl h
        · exact Or.inr ⟨m2, List.mem_cons_self _ _, h⟩
      · exact Or.inr ⟨m2', List.mem_cons_of_mem _ hm2', hp⟩

/-- Opportunities produced by the outer pair scan come from the incoming
state or pair two snapshots of the scanned list. -/
theorem outerPairs_sound (min_spread : ℚ) :
    ∀ (l : List Market) (st : List (String × String) × List Opportunity)
      (o : Opportunity),
      o ∈ (outerPairs min_spread l st).2 →
      o ∈ st.2 ∨ ∃ m1 ∈ l, ∃ m2 ∈ l, pairProps min_spread m1 m2 o := by
  intro l
  induction l with
  | nil =>
      intro st o ho
      rw [outerPairs] at ho
      exact Or.inl ho
  | cons m1 rest ih =>
      intro st o ho
      rw [outerPairs] at ho
      rcases ih _ o ho with hin | ⟨a, ha, b, hb, hp⟩
      · rcases innerPairs_sound min_spread m1 rest st o hin with h | ⟨m2, hm2, hp⟩
        · exact Or.inl h
        · exact Or.inr ⟨m1, List.mem_cons_self _ _, m2,
            List.mem_cons_of_mem _ hm2, hp⟩
      · exact Or.inr ⟨a, List.mem_cons_of_mem _ ha, b,
          List.mem_cons_of_mem _ hb, hp⟩

/-- considerPair on the Scenario A snapshots: similarity 1, spread 2/25,
one opportunity recorded (for any threshold at most 2/25). -/
theorem considerPair_election (ms : ℚ) (hms : ms ≤ 2/25) :
    considerPair ms ([], []) electionMarket1 electionMarket2 =
      ([("manifold-1", "metaculus-2")], [electionOpp]) := by
  have hcard1 : (keyWords electionMarket1.title ∩ keyWords electionMarket2.title).card
      = 3 := by decide
  have hcard2 : min (keyWords electionMarket1.title).card
      (keyWords electionMarket2.title).card = 3 := by decide
  have habs : |electionMarket1.probability.getD 0 - electionMarket2.probability.getD 0|
      = 2/25 := by
    rw [show electionMarket1.probability.getD 0 - electionMarket2.probability.getD 0
        = -(2/25) from by rw [show electionMarket1.probability.getD 0 = 62/100 from rfl,
          show electionMarket2.probability.getD 0 = 7/10 from rfl]; norm_num]
    rw [abs_neg, abs_of_nonneg (by norm_num)]
  have hkey : pairKey electionMarket1 electionMarket2
      = ("manifold-1", "metaculus-2") := by decide
  simp only [considerPair]
  rw [if_neg (show ¬ (electionMarket1.platform = electionMarket2.platform) from
    by decide)]
  rw [if_neg (show ¬ (keyWords electionMarket1.title = ∅ ∨
      keyWords electionMarket2.title = ∅) from by decide)]
  rw [hcard1, hcard2]
  rw [show ((3 : ℕ) : ℚ) / ((3 : ℕ) : ℚ) = 1 from by norm_num]
  rw [if_neg (show ¬ ((1 : ℚ) < 1/2) from by norm_num)]
  rw [habs]
  rw [if_pos (show (2/25 : ℚ) ≥ ms from hms)]
  rw [if_neg (show ¬ (pairKey electionMarket1 electionMarket2
      ∈ ([] : List (String × String))) from by simp)]
  rw [hkey]
  simp [electionOpp]

/-- considerPair on the swapped Scenario A snapshots. -/
theorem considerPair_election_swapped (ms : ℚ) (hms : ms ≤ 2/25) :
    considerPair ms ([], []) electionMarket2 electionMarket1 =
      ([("manifold-1", "metaculus-2")], [electionOppSwapped]) := by
  have hcard1 : (keyWords electionMarket2.title ∩ keyWords electionMarket1.title).card
      = 3 := by decide
  have hcard2 : min (keyWords electionMarket2.title).card
      (keyWords electionMarket1.title).card = 3 := by decide
  have habs : |electionMarket2.probability.getD 0 - electionMarket1.probability.getD 0|
      = 2/25 := by
    rw [show electionMarket2.probability.getD 0 - electionMarket1.probability.getD 0
        = 2/25 from by rw [show electionMarket2.probability.getD 0 = 7/10 from rfl,
          show electionMarket1.probability.getD 0 = 62/100 from rfl]; norm_num]
    rw [abs_of_nonneg (by norm_num)]
  have hkey : pairKey electionMarket2 electionMarket1
      = ("manifold-1", "metaculus-2") := by decide
  simp only [considerPair]
  rw [if_neg (show ¬ (electionMarket2.platform = electionMarket1.platform) from
    by decide)]
  rw [if_neg (show ¬ (keyWords electionMarket2.title = ∅ ∨
      keyWords electionMarket1.title = ∅) from by decide)]
  rw [hcard1, hcard2]
  rw [show ((3 : ℕ) : ℚ) / ((3 : ℕ) : ℚ) = 1 from by norm_num]
  rw [if_neg (show ¬ ((1 : ℚ) < 1/2) from by norm_num)]
  rw [habs]
  rw [if_pos (show (2/25 : ℚ) ≥ ms from hms)]
  rw [if_neg (show ¬ (pairKey electionMarket2 electionMarket1
      ∈ ([] : List (String × String))) from by simp)]
  rw [hkey]
  simp [electionOppSwapped]

/-- find_arbitrage on the Scenario A pair reports exactly one
opportunity with spread 2/25 and similarity 1. -/
theorem findArbitrageOn_election_pair (ms : ℚ) (hms : ms ≤ 2/25) :
    findArbitrageOn 0 ms [electionMarket1, electionMarket2] = [electionOpp] := by
  have hp1 : (electionMarket1.probability.isSome && electionMarket1.is_active 0)
      = true := by
    simp [electionMarket1, Market.is_active]
  have hp2 : (electionMarket2.probability.isSome && electionMarket2.is_active 0)
      = true := by
    simp [electionMarket2, Market.is_active]
  simp only [findArbitrageOn]
  rw [show [electionMarket1, electionMarket2].filter
      (fun m => m.probability.isSome && m.is_active 0)
      = [electionMarket1, electionMarket2] from by
    simp [List.filter, hp1, hp2]]
  simp only [outerPairs, innerPairs, List.foldl_cons, List.foldl_nil]
  rw [considerPair_election ms hms]
  simp [List.mergeSort]

/-- find_arbitrage on the reversed Scenario A pair. -/
theorem findArbitrageOn_election_pair_swapped (ms : ℚ) (hms : ms ≤ 2/25) :
    findArbitrageOn 0 ms [electionMarket2, electionMarket1]
      = [electionOppSwapped] := by
  have hp1 : (electionMarket1.probability.isSome && electionMarket1.is_active 0)
      = true := by
    simp [electionMarket1, Market.is_active]
  have hp2 : (electionMarket2.probability.isSome && electionMarket2.is_active 0)
      = true := by
    simp [electionMarket2, Market.is_active]
  simp only [findArbitrageOn]
  rw [show [electionMarket2, electionMarket1].filter
      (fun m => m.probability.isSome && m.is_active 0)
      = [electionMarket2, electionMarket1] from by
    simp [List.filter, hp1, hp2]]
  simp only [outerPairs, innerPairs, List.foldl_cons, List.foldl_nil]
  rw [considerPair_election_swapped ms hms]
  simp [List.mergeSort]

/-- C4: every reported pair joins two listed snapshots with defined
probabilities and is_active = true from different sources; its
similarity equals the stopword-filtered word-overlap over the smaller
word set, pairs under similarity 1/2 never appear, and the spread is
the absolute probability difference bounded below by min_spread.  The
Scenario A titles score similarity 1 and their pair is reported with
spread 2/25 = 0.08 whenever min_spread ≤ 0.08. -/
theorem c4_arbitrage_matching :
    (∀ (now : ℕ) (min_spread : ℚ) (markets : List Market) (o : Opportunity),
      o ∈ findArbitrageOn now min_spread markets →
        o.market1 ∈ markets ∧ o.market2 ∈ markets ∧
        o.market1.probability.isSome ∧ o.market1.is_active now ∧
        o.market2.probability.isSome ∧ o.market2.is_active now ∧
        o.market1.platform ≠ o.market2.platform ∧
        o.similarity = similarityScore o.market1.title o.market2.title ∧
        ¬ o.similarity < 1/2 ∧
        o.spread = |o.market1.probability.getD 0 - o.market2.probability.getD 0| ∧
        min_spread ≤ o.spread) ∧
    similarityScore "Will X win the election" "X to win election" = 1 ∧
    (∀ min_spread : ℚ, min_spread ≤ 2/25 →
      findArbitrageOn 0 min_spread [electionMarket1, electionMarket2] =
        [electionOpp]) := by
  refine ⟨?_, ?_, fun ms hms => findArbitrageOn_election_pair ms hms⟩
  · intro now min_spread markets o ho
    simp only [findArbitrageOn] at ho
    rw [List.mem_mergeSort] at ho
    rcases outerPairs_sound min_spread _ ([], []) o ho with hin | ⟨m1, hm1, m2, hm2, hp⟩
    · exact absurd hin (List.not_mem_nil o)
    · obtain ⟨he1, he2, hplat, hsimv, hsimge, hspv, hsplb⟩ := hp
      obtain ⟨hm1l, hpred1⟩ := List.mem_filter.mp hm1
      obtain ⟨hm2l, hpred2⟩ := List.mem_filter.mp hm2
      obtain ⟨hsome1, hact1⟩ : m1.probability.isSome = true ∧
          m1.is_active now = true := by simpa using hpred1
      obtain ⟨hsome2, hact2⟩ : m2.probability.isSome = true ∧
          m2.is_active now = true := by simpa using hpred2
      subst he1
      subst he2
      exact ⟨hm1l, hm2l, hsome1, hact1, hsome2, hact2, hplat, hsimv, hsimge,
        hspv, hsplb⟩
  · have hcard1 : (keyWords "Will X win the election" ∩
        keyWords "X to win election").card = 3 := by decide
    have hcard2 : min (keyWords "Will X win the election").card
        (keyWords "X to win election").card = 3 := by decide
    unfold similarityScore
    rw [hcard1, hcard2]
    norm_num

/-- Witness for C4's universally quantified soundness conjunct at the
Scenario A input with threshold 1/20. -/
theorem c4_witness :
    electionOpp ∈ findArbitrageOn 0 (1/20) [electionMarket1, electionMarket2] ∧
    electionOpp.similarity
      = similarityScore electionOpp.market1.title electionOpp.market2.title ∧
    (1/20 : ℚ) ≤ electionOpp.spread := by
  have hmem : electionOpp ∈ findArbitrageOn 0 (1/20)
      [electionMarket1, electionMarket2] := by
    rw [findArbitrageOn_election_pair (1/20) (by norm_num)]
    exact List.mem_singleton.mpr rfl
  have hsound := c4_arbitrage_matching.1 0 (1/20)
    [electionMarket1, electionMarket2] electionOpp hmem
  exact ⟨hmem, hsound.2.2.2.2.2.2.2.1, hsound.2.2.2.2.2.2.2.2.2.2⟩

/-- C8 counterexample: reversing a two-snapshot input swaps the
market1/market2 roles inside the reported opportunity, so a permutation
of the input does not yield the same opportunity list. -/
theorem c8_counterexample :
    findArbitrageOn 0 (1/20) [electionMarket2, electionMarket1] ≠
      findArbitrageOn 0 (1/20) [electionMarket1, electionMarket2] := by
  rw [findArbitrageOn_election_pair (1/20) (by norm_num),
    findArbitrageOn_election_pair_swapped (1/20) (by norm_num)]
  intro h
  have h1 : electionOppSwapped = electionOpp := List.head_eq_of_cons_eq h
  have h2 : electionOppSwapped.market1.id = electionOpp.market1.id :=
    congrArg (fun o => o.market1.id) h1
  revert h2
  decide

/-- C8 (amended): find_arbitrage is deterministic (two runs on the same
snapshot list give identical opportunity lists) and its output is always
sorted in non-increasing spread order; but the output is not invariant
under permutations of the input: reversing the input can swap the
market1/market2 roles inside a reported opportunity, so permuted inputs
agree only up to that swap. -/
theorem c8_amended_determinism_and_sorting :
    (∀ (now : ℕ) (min_spread : ℚ) (markets : List Market),
      findArbitrageOn now min_spread markets =
        findArbitrageOn now min_spread markets) ∧
    (∀ (now : ℕ) (min_spread : ℚ) (markets : List Market),
      List.Sorted (fun a b => b.spread ≤ a.spread)
        (findArbitrageOn now min_spread markets)) ∧
    findArbitrageOn 0 (1/20) [electionMarket2, electionMarket1] =
      (findArbitrageOn 0 (1/20) [electionMarket1, electionMarket2]).map swapOpp := by
  refine ⟨fun _ _ _ => rfl, ?_, ?_⟩
  · intro now min_spread markets
    simp only [findArbitrageOn]
    refine List.Pairwise.imp ?_ (List.sorted_mergeSort ?_ ?_ _)
    · intro a b hab
      exact of_decide_eq_true hab
    · intro a b c hab hbc
      simp only [decide_eq_true_eq] at hab hbc ⊢
      exact le_trans hbc hab
    · intro a b
      rcases le_total b.spread a.spread with h | h
      · simp [h]
      · simp [h]
  · rw [findArbitrageOn_election_pair (1/20) (by norm_num),
      findArbitrageOn_election_pair_swapped (1/20) (by norm_num)]
    simp [swapOpp, electionOpp, electionOppSwapped]

/-! ### Agent loop (C1, C7) and Twitter dispatch (C2) -/

/-- One tool-execution round logs exactly one execution per tool call. -/
theorem execRound_length (execTool : String → TwArgs → ToolResult) :
    ∀ ts : List ToolCallMsg, (execRound execTool ts).2.length = ts.length := by
  intro ts
  induction ts with
  | nil => rfl
  | cons t ts ih =>
      simp only [execRound, List.length_cons, ih]

/-- The loop always terminates in a final LLM request that carries the
tool schemas, whose response text is the returned answer; when the model
asks for tools in every response, the budget is exhausted first. -/
theorem loopGo_final (llm : List ChatMsg → LLMResponse)
    (execTool : String → TwArgs → ToolResult) (maxCalls : ℕ) :
    ∀ (gas : ℕ) (msgs : List ChatMsg) (count : ℕ)
      (reqs : List LLMRequest) (execs : List (ToolCallMsg × ToolResult)),
      maxCalls - count ≤ gas →
      ∃ ms' reqs' execs',
        loopGo llm execTool maxCalls msgs count reqs execs =
          ((llm ms').text, reqs ++ reqs' ++ [{ msgs := ms', withTools := true }],
            execs ++ execs') ∧
        ((∀ ms, (llm ms).toolCalls ≠ []) → maxCalls ≤ count + execs'.length) := by
  intro gas
  induction gas with
  | zero =>
      intro msgs count reqs execs hgas
      have hc : ¬ count < maxCalls := by omega
      refine ⟨msgs, [], [], ?_, ?_⟩
      · rw [loopGo.eq_def, dif_neg hc]
        simp
      · intro _
        omega
  | succ gas ih =>
      intro msgs count reqs execs hgas
      by_cases hc : count < maxCalls
      · rcases htc : (llm msgs).toolCalls with _ | ⟨tc, rest⟩
        · refine ⟨msgs, [], [], ?_, ?_⟩
          · rw [loopGo.eq_def, dif_pos hc]
            simp only [htc]
            simp
          · intro hall
            exact absurd htc (hall msgs)
        · have hlen : maxCalls - (count + (tc :: rest).length) ≤ gas := by
            simp only [List.length_cons]
            omega
          obtain ⟨ms', reqs', execs', heq, hgate⟩ :=
            ih (msgs ++ [ChatMsg.assistant (llm msgs)]
                ++ (execRound execTool (tc :: rest)).1)
              (count + (tc :: rest).length)
              (reqs ++ [{ msgs := msgs, withTools := true }])
              (execs ++ (execRound execTool (tc :: rest)).2) hlen
          refine ⟨ms', { msgs := msgs, withTools := true } :: reqs',
            (execRound execTool (tc :: rest)).2 ++ execs', ?_, ?_⟩
          · rw [loopGo.eq_def, dif_pos hc]
            simp only [htc]
            rw [heq]
            simp
          · intro hall
            have h2 := hgate hall
            have hel : (execRound execTool (tc :: rest)).2.length
                = (tc :: rest).length := execRound_length execTool (tc :: rest)
            simp only [List.length_append, List.length_cons] at h2 hel ⊢
            omega
      · have hc' : ¬ count < maxCalls := hc
        refine ⟨msgs, [], [], ?_, ?_⟩
        · rw [loopGo.eq_def, dif_neg hc']
          simp
        · intro _
          omega

/-- C1 counterexample: with the default budget of 10 and a model that
requests a tool call in every response, the final request of the run
still carries the tool schemas (withTools = true, not false as the
claim's "tool schemas omitted" requires). -/
theorem c1_counterexample :
    ¬ (((runAgentLoop llmAlwaysTool execOk defaultMaxToolCalls "sys"
        [ChatMsg.user "question"]).2.1.getLast?).map LLMRequest.withTools
      = some false) := by
  obtain ⟨ms', reqs', execs', heq, -⟩ :=
    loopGo_final llmAlwaysTool execOk defaultMaxToolCalls defaultMaxToolCalls
      (ChatMsg.system "sys" :: [ChatMsg.user "question"]) 0 [] [] (by omega)
  unfold runAgentLoop
  rw [heq]
  rw [show ([] : List LLMRequest) ++ reqs' ++
      [{ msgs := ms', withTools := true }] =
      reqs' ++ [{ msgs := ms', withTools := true }] from by simp]
  rw [List.getLast?_concat]
  simp

/-- C1 (amended): when the model requests tool calls in every response,
so the tool budget (default 10) is exhausted, the loop makes exactly
one final blocking LLM call — with the tool schemas still included, as
in every request the loop builds — and returns that response's text as
the answer instead of raising an error. -/
theorem c1_amended_final_call (llm : List ChatMsg → LLMResponse)
    (execTool : String → TwArgs → ToolResult) (maxCalls : ℕ)
    (systemPrompt : String) (history : List ChatMsg)
    (hall : ∀ ms, (llm ms).toolCalls ≠ []) :
    ∃ ms' reqs' execs',
      runAgentLoop llm execTool maxCalls systemPrompt history =
        ((llm ms').text, reqs' ++ [{ msgs := ms', withTools := true }], execs') ∧
      maxCalls ≤ execs'.length := by
  obtain ⟨ms', reqs', execs', heq, hgate⟩ :=
    loopGo_final llm execTool maxCalls maxCalls
      (ChatMsg.system systemPrompt :: history) 0 [] [] (by omega)
  refine ⟨ms', reqs', execs', ?_, ?_⟩
  · unfold runAgentLoop
    rw [heq]
    simp
  · have := hgate hall
    omega

/-- Witness for C1 (amended) with the default budget of 10. -/
theorem c1_witness :
    (∀ ms, (llmAlwaysTool ms).toolCalls ≠ []) ∧
    ∃ ms' reqs' execs',
      runAgentLoop llmAlwaysTool execOk 10 "sys" [ChatMsg.user "question"] =
        ((llmAlwaysTool ms').text,
          reqs' ++ [{ msgs := ms', withTools := true }], execs') ∧
      10 ≤ execs'.length :=
  ⟨fun ms => by simp [llmAlwaysTool],
    c1_amended_final_call llmAlwaysTool execOk 10 "sys" [ChatMsg.user "question"]
      (fun ms => by simp [llmAlwaysTool])⟩

/-- C7: with tool budget 1, if the first model response carries two tool
calls, both execute in order and each receives its own tool-result
message (the budget is checked before starting the next round, not
between the calls of one round), after which the loop makes exactly one
more model call and returns its text. -/
theorem c7_mid_round_budget (llm : List ChatMsg → LLMResponse)
    (execTool : String → TwArgs → ToolResult) (systemPrompt : String)
    (history : List ChatMsg) (tc1 tc2 : ToolCallMsg) (t1 : String)
    (h1 : llm (ChatMsg.system systemPrompt :: history)
        = { toolCalls := [tc1, tc2], text := t1 }) :
    runAgentLoop llm execTool 1 systemPrompt history =
      ((llm ((ChatMsg.system systemPrompt :: history) ++
          [ChatMsg.assistant { toolCalls := [tc1, tc2], text := t1 }] ++
          [ChatMsg.toolResult tc1.id (execTool tc1.name tc1.arguments).to_message,
           ChatMsg.toolResult tc2.id
             (execTool tc2.name tc2.arguments).to_message])).text,
        [{ msgs := ChatMsg.system systemPrompt :: history, withTools := true },
         { msgs := (ChatMsg.system systemPrompt :: history) ++
            [ChatMsg.assistant { toolCalls := [tc1, tc2], text := t1 }] ++
            [ChatMsg.toolResult tc1.id (execTool tc1.name tc1.arguments).to_message,
             ChatMsg.toolResult tc2.id
               (execTool tc2.name tc2.arguments).to_message]
           withTools := true }],
        [(tc1, execTool tc1.name tc1.arguments),
         (tc2, execTool tc2.name tc2.arguments)]) := by
  unfold runAgentLoop
  rw [loopGo.eq_def, dif_pos (show (0:ℕ) < 1 from by omega)]
  simp only [h1]
  rw [loopGo.eq_def,
    dif_neg (show ¬ (0 + ([tc1, tc2] : List ToolCallMsg).length < 1) from by
      simp only [List.length_cons, List.length_nil]
      omega)]
  simp [execRound]

/-- Witness for C7: budget 1, a model whose first response carries the
two Scenario C tool calls, and a succeeding executor. -/
theorem c7_witness :
    llmTwoCalls (ChatMsg.system "s" :: [ChatMsg.user "u"])
      = { toolCalls := [tcA, tcB], text := "planning" } ∧
    (runAgentLoop llmTwoCalls execOk 1 "s" [ChatMsg.user "u"]).1 = "final answer" ∧
    (runAgentLoop llmTwoCalls execOk 1 "s" [ChatMsg.user "u"]).2.2 =
      [(tcA, execOk tcA.name tcA.arguments), (tcB, execOk tcB.name tcB.arguments)] := by
  have h1 : llmTwoCalls (ChatMsg.system "s" :: [ChatMsg.user "u"])
      = { toolCalls := [tcA, tcB], text := "planning" } := rfl
  have heq := c7_mid_round_budget llmTwoCalls execOk "s" [ChatMsg.user "u"]
    tcA tcB "planning" h1
  refine ⟨h1, ?_, ?_⟩
  · rw [heq]
    rfl
  · rw [heq]


/-- C2 counterexample: invoking post_tweet while the Twitter client is
unconfigured yields a ToolResult whose success is true — not false as
the claim requires (the handler's "not configured" payload does not
raise, so TwitterTools.execute wraps it as a success). -/
theorem c2_counterexample :
    ¬ ((agentExecuteTool (some { available := false, clientResult := fun _ _ => Except.error "unused" })
      (fun _ _ => { success := false, data := none, error := none })
      (fun _ _ => { success := false, data := none, error := none })
      "post_tweet" { text := "hi", tweets := [] }).success = false) := by
  decide

/-- C2 (amended): invoking any of the ten client-requiring social tools
while the Twitter client is unconfigured returns, without raising, a
ToolResult with success = true and error = none whose data payload
embeds the handler's "Twitter not configured" error, and the
conversation loop continues normally (tool execution is total). -/
theorem c2_amended_unconfigured_social (tw : TwState)
    (tradingExec marketExec : String → TwArgs → ToolResult)
    (name : String) (args : TwArgs)
    (hname : name ∈ clientRequiringTools) (hconf : tw.available = false) :
    ∃ v : TwValue,
      agentExecuteTool (some tw) tradingExec marketExec name args =
        { success := true, data := some (.tw v), error := none } ∧
      twErrorOf v = some "Twitter not configured" := by
  fin_cases hname
  · refine ⟨.dict { posted := some false, error := some "Twitter not configured", text := some args.text }, ?_, rfl⟩
    simp [agentExecuteTool, twitterToolNames, twExecute, twitterHandlerNames, twHandler, hconf]
  · refine ⟨.dict { posted := some false, error := some "Twitter not configured", tweets := some args.tweets }, ?_, rfl⟩
    simp [agentExecuteTool, twitterToolNames, twExecute, twitterHandlerNames, twHandler, hconf]
  · refine ⟨.dict { posted := some false, error := some "Twitter not configured" }, ?_, rfl⟩
    simp [agentExecuteTool, twitterToolNames, twExecute, twitterHandlerNames, twHandler, hconf]
  · refine ⟨.dict { posted := some false, error := some "Twitter not configured" }, ?_, rfl⟩
    simp [agentExecuteTool, twitterToolNames, twExecute, twitterHandlerNames, twHandler, hconf]
  · refine ⟨.list [{ error := some "Twitter not configured" }], ?_, rfl⟩
    simp [agentExecuteTool, twitterToolNames, twExecute, twitterHandlerNames, twHandler, hconf]
  · refine ⟨.list [{ error := some "Twitter not configured" }], ?_, rfl⟩
    simp [agentExecuteTool, twitterToolNames, twExecute, twitterHandlerNames, twHandler, hconf]
  · refine ⟨.dict { error := some "Twitter not configured" }, ?_, rfl⟩
    simp [agentExecuteTool, twitterToolNames, twExecute, twitterHandlerNames, twHandler, hconf]
  · refine ⟨.list [{ error := some "Twitter not configured" }], ?_, rfl⟩
    simp [agentExecuteTool, twitterToolNames, twExecute, twitterHandlerNames, twHandler, hconf]
  · refine ⟨.dict { success := some false, error := some "Twitter not configured" }, ?_, rfl⟩
    simp [agentExecuteTool, twitterToolNames, twExecute, twitterHandlerNames, twHandler, hconf]
  · refine ⟨.dict { success := some false, error := some "Twitter not configured" }, ?_, rfl⟩
    simp [agentExecuteTool, twitterToolNames, twExecute, twitterHandlerNames, twHandler, hconf]

/-- Witness for C2 (amended) at the post_thread tool. -/
theorem c2_witness :
    ("post_thread" ∈ clientRequiringTools) ∧
    (({ available := false, clientResult := fun _ _ => Except.error "unused" } :
        TwState).available = false) ∧
    ∃ v : TwValue,
      agentExecuteTool (some { available := false, clientResult := fun _ _ => Except.error "unused" })
        (fun _ _ => { success := false, data := none, error := none })
        (fun _ _ => { success := false, data := none, error := none })
        "post_thread" { text := "", tweets := ["a", "b"] } =
        { success := true, data := some (.tw v), error := none } ∧
      twErrorOf v = some "Twitter not configured" :=
  ⟨by decide, rfl,
    c2_amended_unconfigured_social
      { available := false, clientResult := fun _ _ => Except.error "unused" }
      (fun _ _ => { success := false, data := none, error := none })
      (fun _ _ => { success := false, data := none, error := none })
      "post_thread" { text := "", tweets := ["a", "b"] } (by decide) rfl⟩

end OracleXBT
